import Mathlib

/-!
Verification of the audio-visualizer core against its specification.

Shallow embedding of `main.go`:
* `visualTap` — a ring buffer tapping the decoded audio stream
  (`newVisualTap`, `visualTap.Stream`, `visualTap.snapshot`);
* `game.updateAudioData` — the 64-band energy analyzer;
* `game.seekToPosition` / `game.updateAudioPosition` — the playback position
  tracker with debounced seeking.

float64 arithmetic is modelled exactly: real arithmetic (ℝ) where the Go code
uses `math.Sqrt` / `math.Pow`, rational arithmetic (ℚ) for the seek math where
every operation is exact, and Go integer division (truncation toward zero) as
`Int.tdiv`.
-/

namespace AudioViz

/-- A stereo frame, Go type `[2]float64`. -/
abbrev Frame := ℝ × ℝ

/-- The zero value that a freshly `make`d Go slice of frames holds. -/
def zeroFrame : Frame := ((0 : ℝ), (0 : ℝ))

/-- `visualTap` (`main.go`): the ring buffer of recent frames plus the write
cursor.  The invariant `buffer.length = ringSize` is established by
`newVisualTap` and preserved by every write. -/
structure VisualTap where
  buffer : List Frame
  nextIndex : ℕ

/-- `newVisualTap`: `make([][2]float64, ringSize)` zero-initialises the buffer
and the cursor starts at index 0. -/
def newVisualTap (ringSize : ℕ) : VisualTap :=
  { buffer := List.replicate ringSize zeroFrame, nextIndex := 0 }

/-- One iteration of the write loop in `visualTap.Stream`: store the frame at
the cursor, advance the cursor, wrap to 0 once it reaches the capacity. -/
def pushFrame (t : VisualTap) (f : Frame) : VisualTap :=
  let buf := t.buffer.set t.nextIndex f
  let ni := t.nextIndex + 1
  { buffer := buf, nextIndex := if buf.length ≤ ni then 0 else ni }

/-- `visualTap.Stream`: the `n` frames the source delivered in this batch are
written into the ring in order (the forwarding of those same frames downstream
carries no state and is omitted). -/
def streamFrames (t : VisualTap) (samples : List Frame) : VisualTap :=
  samples.foldl pushFrame t

/-- Step a read index backwards with wrap-around
(`idx--; if idx < 0 { idx = len(t.buffer) - 1 }`). -/
def prevIdx (len i : ℕ) : ℕ := if i = 0 then len - 1 else i - 1

/-- The backward-walking copy loop of `visualTap.snapshot`. -/
def snapshotWalk (buf : List Frame) : ℕ → ℕ → List Frame
  | _, 0 => []
  | idx, k + 1 => buf.getD idx zeroFrame :: snapshotWalk buf (prevIdx buf.length idx) k

/-- `visualTap.snapshot`: clamp `n` to the capacity, walk backwards from just
before the cursor collecting frames, then reverse into chronological order. -/
def snapshot (t : VisualTap) (n : ℕ) : List Frame :=
  (snapshotWalk t.buffer (prevIdx t.buffer.length t.nextIndex)
    (min n t.buffer.length)).reverse

lemma length_pushFrame (t : VisualTap) (f : Frame) :
    (pushFrame t f).buffer.length = t.buffer.length := by
  simp [pushFrame]

lemma nextIndex_pushFrame_lt (t : VisualTap) (f : Frame) (h : 0 < t.buffer.length) :
    (pushFrame t f).nextIndex < t.buffer.length := by
  simp only [pushFrame, List.length_set]
  split <;> omega

lemma streamFrames_concat (t : VisualTap) (ps : List Frame) (f : Frame) :
    streamFrames t (ps ++ [f]) = pushFrame (streamFrames t ps) f := by
  simp [streamFrames, List.foldl_concat]

lemma streamFrames_inv (ps : List Frame) :
    ∀ t : VisualTap, 0 < t.buffer.length → t.nextIndex < t.buffer.length →
      (streamFrames t ps).buffer.length = t.buffer.length ∧
        (streamFrames t ps).nextIndex < t.buffer.length := by
  induction ps with
  | nil => exact fun t _ h2 => ⟨rfl, h2⟩
  | cons f rest ih =>
    intro t h1 h2
    have hl := length_pushFrame t f
    have hcons : streamFrames t (f :: rest) = streamFrames (pushFrame t f) rest := rfl
    obtain ⟨ha, hb⟩ := ih (pushFrame t f) (by omega)
      (by rw [hl]; exact nextIndex_pushFrame_lt t f h1)
    rw [hcons]
    omega

lemma mod_pred {cap x : ℕ} (h : 1 ≤ x % cap) : (x - 1) % cap = x % cap - 1 := by
  rcases Nat.eq_zero_or_pos cap with h0 | h0
  · subst h0; simp
  · have hx := Nat.div_add_mod x cap
    have hlt : x % cap < cap := Nat.mod_lt _ h0
    set p := cap * (x / cap) with hp
    rw [show x - 1 = (x % cap - 1) + cap * (x / cap) from by omega,
      Nat.add_mul_mod_self_left]
    exact Nat.mod_eq_of_lt (by omega)

/-- Writing at slot `i` does not change what a backward walk reads, as long as
the walk is too short to wrap all the way around to `i`. -/
lemma snapshotWalk_set (buf : List Frame) (f : Frame) (i : ℕ) (hi : i < buf.length) :
    ∀ k j : ℕ, j < buf.length → k ≤ (j + buf.length - i) % buf.length →
      snapshotWalk (buf.set i f) j k = snapshotWalk buf j k := by
  intro k
  induction k with
  | zero => intro j _ _; rfl
  | succ k ih =>
    intro j hj hk
    have hcap : 0 < buf.length := by omega
    have hji : j ≠ i := by
      rintro rfl
      rw [show j + buf.length - j = buf.length from by omega, Nat.mod_self] at hk
      omega
    have hhead : (buf.set i f).getD j zeroFrame = buf.getD j zeroFrame := by
      rw [List.getD_eq_getElem?_getD, List.getD_eq_getElem?_getD,
        List.getElem?_set_ne (Ne.symm hji)]
    have hx1 : 1 ≤ (j + buf.length - i) % buf.length := by omega
    have hprevlt : prevIdx buf.length j < buf.length := by
      unfold prevIdx; split <;> omega
    have hprevmod :
        (prevIdx buf.length j + buf.length - i) % buf.length
          = (j + buf.length - i) % buf.length - 1 := by
      unfold prevIdx
      by_cases hj0 : j = 0
      · subst hj0
        rw [if_pos rfl,
          show buf.length - 1 + buf.length - i = (0 + buf.length - i - 1) + buf.length
            from by omega,
          Nat.add_mod_right, mod_pred hx1]
      · rw [if_neg hj0,
          show j - 1 + buf.length - i = (j + buf.length - i) - 1 from by omega,
          mod_pred hx1]
    simp only [snapshotWalk, List.length_set, hhead]
    congr 1
    exact ih (prevIdx buf.length j) hprevlt (by omega)

/-- Pushing one frame shifts the snapshot: the new frame becomes the most
recent element, and the remainder is the previous snapshot one shorter. -/
lemma snapshot_pushFrame (t : VisualTap) (f : Frame) (n : ℕ)
    (hcap : 0 < t.buffer.length) (hni : t.nextIndex < t.buffer.length) :
    snapshot (pushFrame t f) n =
      if min n t.buffer.length = 0 then []
      else snapshot t (min n t.buffer.length - 1) ++ [f] := by
  have hlen : (pushFrame t f).buffer.length = t.buffer.length := length_pushFrame t f
  have hstart : prevIdx t.buffer.length (pushFrame t f).nextIndex
      = t.nextIndex := by
    simp only [pushFrame, List.length_set]
    unfold prevIdx
    by_cases hge : t.buffer.length ≤ t.nextIndex + 1
    · rw [if_pos hge, if_pos rfl]; omega
    · rw [if_neg hge, if_neg (by omega)]; omega
  rcases hmin : min n t.buffer.length with _ | mm
  · rw [if_pos rfl]
    unfold snapshot
    rw [hlen, hstart, hmin]
    rfl
  · rw [if_neg (by omega)]
    unfold snapshot
    rw [hlen, hstart, hmin]
    have hbuf : (pushFrame t f).buffer = t.buffer.set t.nextIndex f := rfl
    have hmmle : mm + 1 ≤ t.buffer.length := by
      rw [← hmin]; exact min_le_right _ _
    have hheadf : (t.buffer.set t.nextIndex f).getD t.nextIndex zeroFrame = f := by
      rw [List.getD_eq_getElem?_getD, List.getElem?_set_self hni]
      rfl
    have hdist : (prevIdx t.buffer.length t.nextIndex + t.buffer.length - t.nextIndex)
        % t.buffer.length = t.buffer.length - 1 := by
      unfold prevIdx
      by_cases h0 : t.nextIndex = 0
      · rw [if_pos h0, h0,
          show t.buffer.length - 1 + t.buffer.length - 0
              = (t.buffer.length - 1) + t.buffer.length from by omega,
          Nat.add_mod_right]
        exact Nat.mod_eq_of_lt (by omega)
      · rw [if_neg h0,
          show t.nextIndex - 1 + t.buffer.length - t.nextIndex = t.buffer.length - 1
            from by omega]
        exact Nat.mod_eq_of_lt (by omega)
    have htail : snapshotWalk (t.buffer.set t.nextIndex f)
        (prevIdx t.buffer.length t.nextIndex) mm
          = snapshotWalk t.buffer (prevIdx t.buffer.length t.nextIndex) mm :=
      snapshotWalk_set t.buffer f t.nextIndex hni mm
        (prevIdx t.buffer.length t.nextIndex)
        (by unfold prevIdx; split <;> omega)
        (by omega)
    rw [hbuf]
    simp only [snapshotWalk, List.length_set]
    rw [hheadf]
    have hmin' : min mm t.buffer.length = mm := by omega
    rw [Nat.add_sub_cancel, hmin', List.reverse_cons]
    congr 1
    rw [htail]

lemma snapshotWalk_replicate (cap k : ℕ) :
    ∀ j : ℕ, snapshotWalk (List.replicate cap zeroFrame) j k
      = List.replicate k zeroFrame := by
  induction k with
  | zero => intro j; rfl
  | succ k ih =>
    intro j
    simp only [snapshotWalk, List.length_replicate, ih, List.replicate_succ]
    congr 1
    rw [List.getD_eq_getElem?_getD, List.getElem?_replicate]
    split <;> rfl

/-- Master characterisation of the ring buffer: after pushing the frames `ps`
through a fresh tap of capacity `cap`, `snapshot n` is the last
`min n cap` frames pushed, left-padded with zero frames from the
never-written slots when fewer than `min n cap` frames were pushed. -/
lemma snapshot_streamFrames (cap : ℕ) (hcap : 0 < cap) (ps : List Frame) :
    ∀ n : ℕ, snapshot (streamFrames (newVisualTap cap) ps) n =
      List.replicate (min n cap - ps.length) zeroFrame
        ++ ps.drop (ps.length - min n cap) := by
  have hlen0 : (newVisualTap cap).buffer.length = cap := by
    simp [newVisualTap]
  induction ps using List.reverseRecOn with
  | nil =>
    intro n
    simp [streamFrames, snapshot, newVisualTap, snapshotWalk_replicate,
      List.reverse_replicate]
  | append_singleton ps f ih =>
    intro n
    obtain ⟨hblen, hbidx⟩ := streamFrames_inv ps (newVisualTap cap)
      (by omega) (by simp [newVisualTap]; omega)
    rw [streamFrames_concat,
      snapshot_pushFrame _ f n (by omega) (by omega), hblen, hlen0]
    rw [hlen0] at hbidx
    set m := min n cap with hmdef
    have hmle : m ≤ cap := min_le_right _ _
    by_cases hm : m = 0
    · rw [if_pos hm, hm]
      simp
    · rw [if_neg hm, ih (m - 1)]
      have hmin1 : min (m - 1) cap = m - 1 := by omega
      rw [hmin1]
      set L := ps.length with hLdef
      simp only [List.length_append, List.length_singleton]
      by_cases hL : m ≤ L + 1
      · rw [show m - 1 - L = 0 from by omega, show m - (L + 1) = 0 from by omega]
        simp only [List.replicate_zero, List.nil_append]
        rw [List.drop_append_eq_append_drop,
          show L + 1 - m - L = 0 from by omega, List.drop_zero,
          show L - (m - 1) = L + 1 - m from by omega]
      · rw [show L - (m - 1) = 0 from by omega, show L + 1 - m = 0 from by omega]
        simp only [List.drop_zero]
        rw [show m - 1 - L = m - (L + 1) from by omega, List.append_assoc]

lemma foldl_streamFrames_flatten (batches : List (List Frame)) :
    ∀ t : VisualTap, batches.foldl streamFrames t = streamFrames t batches.flatten := by
  induction batches with
  | nil => intro t; rfl
  | cons b rest ih =>
    intro t
    rw [List.foldl_cons, ih, List.flatten_cons]
    simp [streamFrames, List.foldl_append]

/-- C1: for every sequence of frame batches pushed through the tap via `Stream`
whose total length is at least `min n cap`, `snapshot n` returns exactly the
last `min n cap` pushed frames in chronological order (oldest first). -/
theorem c1_snapshot_last_frames (cap n : ℕ) (hcap : 0 < cap)
    (batches : List (List Frame)) (h : min n cap ≤ batches.flatten.length) :
    snapshot (batches.foldl streamFrames (newVisualTap cap)) n
      = batches.flatten.drop (batches.flatten.length - min n cap) := by
  rw [foldl_streamFrames_flatten, snapshot_streamFrames cap hcap,
    show min n cap - batches.flatten.length = 0 from by omega]
  simp

/-- Witness for C1, the concrete scenario of the spec: capacity 4, frames
f1..f6 pushed one at a time, `snapshot 4 = [f3, f4, f5, f6]`. -/
theorem c1_snapshot_last_frames_witness :
    snapshot ([[((1 : ℝ), (1 : ℝ))], [((2 : ℝ), (2 : ℝ))], [((3 : ℝ), (3 : ℝ))],
        [((4 : ℝ), (4 : ℝ))], [((5 : ℝ), (5 : ℝ))],
        [((6 : ℝ), (6 : ℝ))]].foldl streamFrames (newVisualTap 4)) 4
      = [((3 : ℝ), (3 : ℝ)), ((4 : ℝ), (4 : ℝ)), ((5 : ℝ), (5 : ℝ)),
          ((6 : ℝ), (6 : ℝ))] :=
  (c1_snapshot_last_frames 4 4 (by decide)
    [[((1 : ℝ), (1 : ℝ))], [((2 : ℝ), (2 : ℝ))], [((3 : ℝ), (3 : ℝ))],
      [((4 : ℝ), (4 : ℝ))], [((5 : ℝ), (5 : ℝ))], [((6 : ℝ), (6 : ℝ))]]
    (by decide)).trans rfl

/-- C4 counterexample: on a tap into which no frame was ever pushed,
`snapshot 1` is not the empty sequence — it returns one zero-valued frame. -/
theorem c4_snapshot_empty_counterexample :
    snapshot (newVisualTap 4) 1 ≠ [] := by
  have h : (snapshot (newVisualTap 4) 1).length = 1 := rfl
  intro he
  rw [he] at h
  simp at h

/-- C4 amended: `snapshot n` on a never-pushed tap returns `min n capacity`
zero-valued frames `(0, 0)` (the zero-initialised ring slots), not an empty
sequence. -/
theorem c4_snapshot_empty_amended (ringSize n : ℕ) :
    snapshot (newVisualTap ringSize) n
      = List.replicate (min n ringSize) zeroFrame := by
  simp [snapshot, newVisualTap, snapshotWalk_replicate, List.reverse_replicate]

/-- C10: for every `n` and every tap state reachable by pushes from a fresh
tap, `snapshot n` returns exactly `min n capacity` frames, and ring slots
never written read as the zero frame `(0, 0)`. -/
theorem c10_snapshot_exact_length (cap n : ℕ) (hcap : 0 < cap) (ps : List Frame) :
    snapshot (streamFrames (newVisualTap cap) ps) n
      = List.replicate (min n cap - ps.length) zeroFrame
          ++ ps.drop (ps.length - min n cap)
    ∧ (snapshot (streamFrames (newVisualTap cap) ps) n).length = min n cap := by
  have h := snapshot_streamFrames cap hcap ps n
  refine ⟨h, ?_⟩
  rw [h]
  simp only [List.length_append, List.length_replicate, List.length_drop]
  omega

/-- Witness for C10: capacity 4, one pushed frame, `snapshot 3` is two zero
frames followed by the pushed frame — exactly `min 3 4 = 3` frames. -/
theorem c10_snapshot_exact_length_witness :
    snapshot (streamFrames (newVisualTap 4) [((1 : ℝ), (0 : ℝ))]) 3
        = [zeroFrame, zeroFrame, ((1 : ℝ), (0 : ℝ))]
      ∧ (snapshot (streamFrames (newVisualTap 4) [((1 : ℝ), (0 : ℝ))]) 3).length = 3 :=
  c10_snapshot_exact_length 4 3 (by decide) [((1 : ℝ), (0 : ℝ))]

/-! ## Band energy analyzer (`game.updateAudioData`) -/

/-- The `smoothingFactor` constant of `main.go`. -/
noncomputable def smoothingFactor : ℝ := 0.6

/-- The body of the band loop in `game.updateAudioData` for band `i`:
if the segment start `i*segmentSize` is past the end of the snapshot the Go
loop `break`s, leaving `audioData[i]` at its previous value (the start index
grows with `i`, so per-band guarding is equivalent to the `break`).
Otherwise the band is the smoothed, compressed RMS of the segment. -/
noncomputable def bandValue (prev : List ℝ) (samples : List Frame) (segSize i : ℕ) : ℝ :=
  let start := i * segSize
  if start < samples.length then
    let endIdx := min (start + segSize) samples.length
    let seg := (samples.drop start).take (endIdx - start)
    let sumSquares := (seg.map fun f => ((f.1 + f.2) * 0.5) * ((f.1 + f.2) * 0.5)).sum
    let rms := Real.sqrt (sumSquares / ((endIdx - start : ℕ) : ℝ))
    let mag := rms ^ (0.3 : ℝ)
    smoothingFactor * prev.getD i 0 + (1 - smoothingFactor) * mag
  else prev.getD i 0

/-- `game.updateAudioData` as a function of the previous bands and the
snapshot.  `segmentSize := int(math.Max(1, float64(N)/64))` truncates toward
zero, which for `N : ℕ` is `max 1 (N / 64)` with Nat floor division. -/
noncomputable def updateAudioData (prev : List ℝ) (samples : List Frame) : List ℝ :=
  if samples.length = 0 then prev
  else
    let prevN := if prev.length ≠ 64 then List.replicate 64 (0 : ℝ) else prev
    let segSize := max 1 (samples.length / 64)
    (List.range 64).map (bandValue prevN samples segSize)

/-- One band as the spec sentence describes it: the segment is the `i`-th
contiguous block of `segSize` frames (trailing segments shorter), the mono mix
is the arithmetic mean of the channels, the magnitude is `rms^0.3`, smoothing
is exponential, and a segment with zero available frames keeps the previous
value. -/
noncomputable def specBand (prev : List ℝ) (samples : List Frame) (segSize i : ℕ) : ℝ :=
  let seg := (samples.drop (i * segSize)).take segSize
  if seg.length = 0 then prev.getD i 0
  else
    let rms := Real.sqrt ((seg.map fun f => ((f.1 + f.2) / 2) ^ 2).sum / (seg.length : ℝ))
    smoothingFactor * prev.getD i 0 + (1 - smoothingFactor) * rms ^ (0.3 : ℝ)

/-- Claim C2's partition rule: 64 contiguous segments of size `⌈N/64⌉`. -/
noncomputable def specUpdateCeil (prev : List ℝ) (samples : List Frame) : List ℝ :=
  (List.range 64).map (specBand prev samples ((samples.length + 63) / 64))

/-- The corrected partition rule read off the code: segment size
`max 1 ⌊N/64⌋`; frames beyond `64 * segSize` belong to no segment. -/
noncomputable def specUpdateFloor (prev : List ℝ) (samples : List Frame) : List ℝ :=
  (List.range 64).map (specBand prev samples (max 1 (samples.length / 64)))

lemma getD_map_range {k n : ℕ} (h : k < n) (f : ℕ → ℝ) :
    ((List.range n).map f).getD k 0 = f k := by
  rw [List.getD_eq_getElem?_getD, List.getElem?_map, List.getElem?_range h]
  rfl

lemma map_range_getD (n : ℕ) (l : List ℝ) (g : ℝ → ℝ) (hl : l.length = n) :
    (List.range n).map (fun i => g (l.getD i 0)) = l.map g := by
  apply List.ext_getElem
  · simp [hl]
  · intro k h1 h2
    simp only [List.getElem_map, List.getElem_range]
    simp only [List.length_map, List.length_range] at h1
    rw [List.getD_eq_getElem?_getD, List.getElem?_eq_getElem (by omega : k < l.length)]
    rfl

lemma bandValue_eq_specBand (prev : List ℝ) (samples : List Frame) (segSize i : ℕ)
    (hseg : 1 ≤ segSize) :
    bandValue prev samples segSize i = specBand prev samples segSize i := by
  simp only [bandValue, specBand]
  by_cases hstart : i * segSize < samples.length
  · rw [if_pos hstart]
    have hlen : ((samples.drop (i * segSize)).take segSize).length
        = min segSize (samples.length - i * segSize) := by
      simp [List.length_take, List.length_drop]
    rw [if_neg (by omega)]
    have htake : (samples.drop (i * segSize)).take
          (min (i * segSize + segSize) samples.length - i * segSize)
        = (samples.drop (i * segSize)).take segSize := by
      rw [List.take_eq_take]
      simp only [List.length_drop]
      omega
    rw [htake]
    have hden : ((min (i * segSize + segSize) samples.length - i * segSize : ℕ) : ℝ)
        = (((samples.drop (i * segSize)).take segSize).length : ℝ) := by
      rw [hlen]
      congr 1
      omega
    rw [hden]
    have hmap : ((samples.drop (i * segSize)).take segSize).map
          (fun f => ((f.1 + f.2) * 0.5) * ((f.1 + f.2) * 0.5))
        = ((samples.drop (i * segSize)).take segSize).map
          (fun f => ((f.1 + f.2) / 2) ^ 2) := by
      apply List.map_congr_left
      intro f _
      have h05 : (0.5 : ℝ) = 1 / 2 := by norm_num
      rw [h05]
      ring
    rw [hmap]
  · rw [if_neg hstart]
    rw [if_pos (by simp only [List.length_take, List.length_drop]; omega)]

/-- C2 counterexample: on a snapshot of 65 frames the code's segmentation
(`max 1 ⌊65/64⌋ = 1`) differs from the claimed one (`⌈65/64⌉ = 2`): band 0
sees only the silent frame 0 under the code but frames 0 and 1 under the
claim. -/
theorem c2_update_matches_ceil_counterexample :
    updateAudioData (List.replicate 64 (0 : ℝ))
        (((0 : ℝ), (0 : ℝ)) :: List.replicate 64 ((1 : ℝ), (1 : ℝ)))
      ≠ specUpdateCeil (List.replicate 64 (0 : ℝ))
        (((0 : ℝ), (0 : ℝ)) :: List.replicate 64 ((1 : ℝ), (1 : ℝ))) := by
  intro heq
  have h0 := congrArg (fun l => l.getD 0 0) heq
  simp only at h0
  have hcode : (updateAudioData (List.replicate 64 (0 : ℝ))
      (((0 : ℝ), (0 : ℝ)) :: List.replicate 64 ((1 : ℝ), (1 : ℝ)))).getD 0 0 = 0 := by
    simp only [updateAudioData, List.length_cons, List.length_replicate]
    rw [if_neg (by norm_num)]
    simp only [List.length_replicate, ne_eq, not_true_eq_false, if_false]
    rw [getD_map_range (by norm_num)]
    simp only [bandValue]
    norm_num
  have hspec : (specUpdateCeil (List.replicate 64 (0 : ℝ))
      (((0 : ℝ), (0 : ℝ)) :: List.replicate 64 ((1 : ℝ), (1 : ℝ)))).getD 0 0
        = (1 - smoothingFactor) * Real.sqrt (1 / 2) ^ (0.3 : ℝ) := by
    simp only [specUpdateCeil, List.length_cons, List.length_replicate]
    rw [getD_map_range (by norm_num)]
    simp only [specBand]
    norm_num [List.take_replicate, List.take_succ_cons]
  rw [hcode, hspec] at h0
  have hpos : 0 < (1 - smoothingFactor) * Real.sqrt (1 / 2) ^ (0.3 : ℝ) := by
    apply mul_pos
    · rw [smoothingFactor]; norm_num
    · exact Real.rpow_pos_of_pos (Real.sqrt_pos.mpr (by norm_num)) _
  rw [← h0] at hpos
  exact lt_irrefl 0 hpos

lemma specUpdate_nil (prev : List ℝ) (hprev : prev.length = 64) (s : ℕ) :
    (List.range 64).map (specBand prev ([] : List Frame) s) = prev := by
  have h1 : (List.range 64).map (specBand prev ([] : List Frame) s)
      = (List.range 64).map (fun i => id (prev.getD i 0)) := by
    apply List.map_congr_left
    intro i _
    simp [specBand]
  rw [h1, map_range_getD 64 prev id hprev, List.map_id]

/-- C2 amended: `updateAudioData` partitions with segment size
`max 1 ⌊N/64⌋` (not `⌈N/64⌉`); band `i` with `i*segSize ≥ N` keeps its
previous value, every other band is the smoothed compressed RMS of its
segment, and for `N > 64` the trailing `N mod 64`-ish frames past
`64*segSize` are in no segment. -/
theorem c2_update_segmentation_amended (prev : List ℝ) (samples : List Frame)
    (hprev : prev.length = 64) :
    updateAudioData prev samples = specUpdateFloor prev samples := by
  by_cases hN : samples.length = 0
  · have hnil : samples = [] := List.length_eq_zero.mp hN
    subst hnil
    simp only [updateAudioData, List.length_nil, if_pos rfl, specUpdateFloor]
    exact (specUpdate_nil prev hprev _).symm
  · simp only [updateAudioData, specUpdateFloor, if_neg hN, hprev, ne_eq,
      not_true_eq_false, if_false]
    apply List.map_congr_left
    intro i _
    exact bandValue_eq_specBand prev samples _ i (le_max_left _ _)

/-- Witness for C2 amended at a concrete one-frame snapshot. -/
theorem c2_update_segmentation_amended_witness :
    updateAudioData (List.replicate 64 (0 : ℝ)) [((1 : ℝ), (2 : ℝ))]
      = specUpdateFloor (List.replicate 64 (0 : ℝ)) [((1 : ℝ), (2 : ℝ))] :=
  c2_update_segmentation_amended (List.replicate 64 (0 : ℝ)) [((1 : ℝ), (2 : ℝ))]
    (by simp)

/-- C3 failing evaluation: `updateAudioData` applies no clamping (`clamp01`
is defined in `main.go` but never called), so one pathological frame
`(1024, 1024)` over zero previous bands drives band 0 to
`0.4 * 1024^0.3 = 3.2 > 1`, violating the claimed `[0,1]` bound. -/
theorem c3_band_exceeds_one :
    (updateAudioData (List.replicate 64 (0 : ℝ)) [((1024 : ℝ), (1024 : ℝ))]).getD 0 0
        = 16 / 5
    ∧ (1 : ℝ) < 16 / 5 := by
  refine ⟨?_, by norm_num⟩
  simp only [updateAudioData, List.length_singleton]
  rw [if_neg (by norm_num)]
  simp only [List.length_replicate, ne_eq, not_true_eq_false, if_false]
  rw [getD_map_range (by norm_num)]
  simp only [bandValue]
  norm_num
  rw [show (1048576 : ℝ) = 1024 ^ 2 by norm_num,
    Real.sqrt_sq (by norm_num : (0 : ℝ) ≤ 1024)]
  have h1024 : (1024 : ℝ) = (2 : ℝ) ^ ((10 : ℕ) : ℝ) := by
    rw [Real.rpow_natCast]; norm_num
  have hpow : (1024 : ℝ) ^ ((3 : ℝ) / 10) = 8 := by
    rw [h1024, ← Real.rpow_mul (by norm_num : (0 : ℝ) ≤ 2),
      show ((10 : ℕ) : ℝ) * ((3 : ℝ) / 10) = ((3 : ℕ) : ℝ) by norm_num,
      Real.rpow_natCast]
    norm_num
  rw [hpow, smoothingFactor]
  norm_num

/-- C9: updating with an all-zero snapshot covering all 64 segments
multiplies every band by the smoothing factor, so repeated silence drives
each band toward 0 with ratio 0.6 per step. -/
theorem c9_silence_decay (prev : List ℝ) (hprev : prev.length = 64)
    (n : ℕ) (hn : 64 ≤ n) :
    updateAudioData prev (List.replicate n zeroFrame)
      = prev.map (fun x => smoothingFactor * x) := by
  simp only [updateAudioData, List.length_replicate, hprev, ne_eq,
    not_true_eq_false, if_false]
  rw [if_neg (by omega : ¬n = 0)]
  have hs1 : 1 ≤ n / 64 := (Nat.one_le_div_iff (by norm_num)).mpr hn
  have hsmax : max 1 (n / 64) = n / 64 := max_eq_right hs1
  rw [hsmax]
  have hband : ∀ i : ℕ, i < 64 →
      bandValue prev (List.replicate n zeroFrame) (n / 64) i
        = smoothingFactor * prev.getD i 0 := by
    intro i hi
    have hstart : i * (n / 64) < n := by
      have h1 : i * (n / 64) ≤ 63 * (n / 64) :=
        Nat.mul_le_mul_right (n / 64) (by omega)
      have h2 : n / 64 * 64 ≤ n := Nat.div_mul_le_self n 64
      have h4 : 63 * (n / 64) + n / 64 = 64 * (n / 64) := by ring
      have h5 : 64 * (n / 64) = n / 64 * 64 := by ring
      omega
    simp only [bandValue, List.length_replicate, if_pos hstart]
    rw [List.drop_replicate, List.take_replicate, List.map_replicate]
    have hz : ((zeroFrame.1 + zeroFrame.2) * 0.5) * ((zeroFrame.1 + zeroFrame.2) * 0.5)
        = 0 := by
      simp [zeroFrame]
    rw [hz, List.sum_replicate, smul_zero, zero_div, Real.sqrt_zero,
      Real.zero_rpow (by norm_num), mul_zero, add_zero]
  calc (List.range 64).map (bandValue prev (List.replicate n zeroFrame) (n / 64))
      = (List.range 64).map (fun i => smoothingFactor * prev.getD i 0) := by
        apply List.map_congr_left
        intro i hi
        exact hband i (List.mem_range.mp hi)
    _ = prev.map (fun x => smoothingFactor * x) :=
        map_range_getD 64 prev (fun x => smoothingFactor * x) hprev

/-- Witness for C9 at 64 pushed zero frames over unit bands. -/
theorem c9_silence_decay_witness :
    updateAudioData (List.replicate 64 (1 : ℝ)) (List.replicate 64 zeroFrame)
      = (List.replicate 64 (1 : ℝ)).map (fun x => smoothingFactor * x) :=
  c9_silence_decay (List.replicate 64 (1 : ℝ)) (by simp) 64 (by norm_num)

/-! ## Playback position tracker (`game.seekToPosition`,
`game.updateAudioPosition`, `game.loadAndPlay`, end-of-stream callback) -/

/-- `time.Second` in nanoseconds (Go `time.Duration` is int64 nanoseconds). -/
def nsPerSecond : ℤ := 1000000000

/-- Go `int(x)` conversion of a nonnegative-or-negative float64: truncation
toward zero, modelled exactly on ℚ. -/
def goTrunc (q : ℚ) : ℤ := if q < 0 then -⌊-q⌋ else ⌊q⌋

/-- `beep.SampleRate.N(d) = int(d * time.Duration(sr) / time.Second)`;
Go int64 division truncates toward zero. -/
def sampleRateN (sr d : ℤ) : ℤ := Int.tdiv (d * sr) nsPerSecond

/-- The loaded `beep.StreamSeekCloser`: the only capability the tracker reads
is `Len()`, the total sample count. -/
structure StreamerInfo where
  len : ℤ
deriving DecidableEq

/-- The fields of `game` that the position tracker reads and writes.
Durations and timestamps are int64 nanoseconds.  The decoder's `Seek` is
passed in as an oracle `seekRes : ℤ → Option String` (`none` = success). -/
structure GameSeek where
  streamer : Option StreamerInfo
  sampleRate : ℤ
  audioPosition : ℤ
  audioDuration : ℤ
  lastSeekTime : ℤ
  paused : Bool
  lastErr : Option String
deriving DecidableEq

/-- The sample offset `game.seekToPosition` hands to the decoder: clamp the
normalized position into [0,1] (two separate ifs as in the code), convert to
samples through float64 arithmetic truncated by `int(...)`, clamp negatives
to 0, and clamp `≥ maxPos` to `maxPos - 1`. -/
def seekTarget (g : GameSeek) (maxPos : ℤ) (pos : ℚ) : ℤ :=
  let pos := if pos < 0 then 0 else pos
  let pos := if pos > 1 then 1 else pos
  let seekPos := goTrunc (pos * (g.audioDuration : ℚ) * (g.sampleRate : ℚ)
    / (nsPerSecond : ℚ))
  let seekPos := if seekPos < 0 then 0 else seekPos
  if seekPos ≥ maxPos then maxPos - 1 else seekPos

/-- `game.seekToPosition`.  Returns the new state together with the list of
offsets passed to the decoder's `Seek` (empty when the decoder was not
invoked).  `now` is the current instant, so `time.Since(g.lastSeekTime)`
is `now - g.lastSeekTime`. -/
def seekToPosition (g : GameSeek) (pos : ℚ) (now : ℤ)
    (seekRes : ℤ → Option String) : GameSeek × List ℤ :=
  match g.streamer with
  | none => (g, [])
  | some st =>
    if now - g.lastSeekTime < 50 * 1000000 then (g, [])
    else
      let seekPos := seekTarget g st.len pos
      match seekRes seekPos with
      | some e => ({ g with lastErr := some e }, [seekPos])
      | none =>
        ({ g with
            audioPosition := Int.tdiv (seekPos * nsPerSecond)
              (sampleRateN g.sampleRate nsPerSecond),
            lastSeekTime := now }, [seekPos])

/-- `game.updateAudioPosition`: advance the time-based position estimate by
one 60 Hz frame and clamp it to the total duration. -/
def updateAudioPosition (g : GameSeek) : GameSeek :=
  if g.streamer = none ∨ g.paused = true then g
  else
    let p := g.audioPosition + Int.tdiv nsPerSecond 60
    if p > g.audioDuration then { g with audioPosition := g.audioDuration }
    else { g with audioPosition := p }

/-- The duration `game.loadAndPlay` derives from the decoder:
`time.Duration(streamer.Len()) * time.Second / time.Duration(sr.N(time.Second))`. -/
def loadDuration (len sr : ℤ) : ℤ :=
  Int.tdiv (len * nsPerSecond) (sampleRateN sr nsPerSecond)

/-- The progress-tracker fields `game.loadAndPlay` initialises. -/
def loadAndPlayReset (g : GameSeek) (len sr : ℤ) : GameSeek :=
  { g with streamer := some ⟨len⟩, sampleRate := sr, paused := false,
           audioDuration := loadDuration len sr, audioPosition := 0 }

/-- The end-of-stream callback registered in `game.loadAndPlay`: drop the
streamer and reset duration and position to 0. -/
def onStreamEnded (g : GameSeek) : GameSeek :=
  { g with streamer := none, audioDuration := 0, audioPosition := 0 }

lemma sampleRateN_second (sr : ℤ) : sampleRateN sr nsPerSecond = sr := by
  unfold sampleRateN
  exact Int.mul_tdiv_cancel_left sr (by norm_num [nsPerSecond])

lemma seekToPosition_debounced (g : GameSeek) (pos : ℚ) (now : ℤ)
    (res : ℤ → Option String) (h : now - g.lastSeekTime < 50 * 1000000) :
    seekToPosition g pos now res = (g, []) := by
  rcases hst : g.streamer with _ | st
  · simp [seekToPosition, hst]
  · simp only [seekToPosition, hst]
    rw [if_pos h]

/-- C5: a seek request arriving less than 50 ms after the last successful
seek is ignored entirely — the state is unchanged and the decoder is not
invoked; consequently the second of two `requestSeek` calls within the
debounce window is a no-op and the position is only the first call's
result. -/
theorem c5_seek_debounce :
    (∀ (g : GameSeek) (pos : ℚ) (now : ℤ) (res : ℤ → Option String),
        now - g.lastSeekTime < 50 * 1000000 →
        seekToPosition g pos now res = (g, []))
    ∧ (∀ (g : GameSeek) (st : StreamerInfo) (pos₁ pos₂ : ℚ) (now₁ now₂ : ℤ)
        (res₁ res₂ : ℤ → Option String),
        g.streamer = some st →
        ¬(now₁ - g.lastSeekTime < 50 * 1000000) →
        res₁ (seekTarget g st.len pos₁) = none →
        now₂ - now₁ < 50 * 1000000 →
        seekToPosition (seekToPosition g pos₁ now₁ res₁).1 pos₂ now₂ res₂
          = ((seekToPosition g pos₁ now₁ res₁).1, [])) := by
  constructor
  · exact seekToPosition_debounced
  · intro g st pos₁ pos₂ now₁ now₂ res₁ res₂ hst hdb hres hwin
    have h1 : (seekToPosition g pos₁ now₁ res₁).1.lastSeekTime = now₁ := by
      simp only [seekToPosition, hst]
      rw [if_neg hdb, hres]
    exact seekToPosition_debounced _ pos₂ now₂ res₂ (by rw [h1]; omega)

/-- Witness for C5: a request 3 ns after a seek at instant 0 is a no-op. -/
theorem c5_seek_debounce_witness :
    seekToPosition ⟨some ⟨441000⟩, 44100, 0, 10000000000, 0, false, none⟩
        (1 / 2) 3 (fun _ => none)
      = (⟨some ⟨441000⟩, 44100, 0, 10000000000, 0, false, none⟩, []) :=
  c5_seek_debounce.1 ⟨some ⟨441000⟩, 44100, 0, 10000000000, 0, false, none⟩
    (1 / 2) 3 (fun _ => none) (by decide)

/-- C6: when the decoder's seek fails, the position and the debounce
timestamp are left unchanged, the error is surfaced in `lastErr`, and the
decoder was invoked exactly once with the clamped offset. -/
theorem c6_seek_error_leaves_state (g : GameSeek) (st : StreamerInfo) (pos : ℚ)
    (now : ℤ) (res : ℤ → Option String) (e : String)
    (hst : g.streamer = some st)
    (hdb : ¬(now - g.lastSeekTime < 50 * 1000000))
    (hres : res (seekTarget g st.len pos) = some e) :
    (seekToPosition g pos now res).1.audioPosition = g.audioPosition
    ∧ (seekToPosition g pos now res).1.lastSeekTime = g.lastSeekTime
    ∧ (seekToPosition g pos now res).1.lastErr = some e
    ∧ (seekToPosition g pos now res).2 = [seekTarget g st.len pos] := by
  simp only [seekToPosition, hst]
  rw [if_neg hdb, hres]
  exact ⟨rfl, rfl, rfl, rfl⟩

/-- Witness for C6 with a decoder that always refuses. -/
theorem c6_seek_error_leaves_state_witness :
    (seekToPosition ⟨some ⟨441000⟩, 44100, 123, 10000000000, 0, false, none⟩
        (1 / 2) 1000000000 (fun _ => some "seek refused")).1.audioPosition = 123
    ∧ (seekToPosition ⟨some ⟨441000⟩, 44100, 123, 10000000000, 0, false, none⟩
        (1 / 2) 1000000000 (fun _ => some "seek refused")).1.lastSeekTime = 0
    ∧ (seekToPosition ⟨some ⟨441000⟩, 44100, 123, 10000000000, 0, false, none⟩
        (1 / 2) 1000000000 (fun _ => some "seek refused")).1.lastErr
        = some "seek refused"
    ∧ (seekToPosition ⟨some ⟨441000⟩, 44100, 123, 10000000000, 0, false, none⟩
        (1 / 2) 1000000000 (fun _ => some "seek refused")).2
        = [seekTarget ⟨some ⟨441000⟩, 44100, 123, 10000000000, 0, false, none⟩
            (441000 : ℤ) (1 / 2)] :=
  c6_seek_error_leaves_state
    ⟨some ⟨441000⟩, 44100, 123, 10000000000, 0, false, none⟩ ⟨441000⟩
    (1 / 2) 1000000000 (fun _ => some "seek refused") "seek refused"
    rfl (by decide) rfl

lemma goTrunc_intCast (z : ℤ) : goTrunc ((z : ℤ) : ℚ) = z := by
  unfold goTrunc
  split_ifs with h
  · rw [← Int.cast_neg, Int.floor_intCast]
    omega
  · rw [Int.floor_intCast]

lemma seek_offset_arith (T sr X : ℤ) (hT0 : 0 ≤ T) (hsr1 : 1 ≤ sr)
    (hsrB : sr ≤ 1000000000) (hX : X = T * 1000000000 / sr * sr) :
    (if (if X / 1000000000 < 0 then 0 else X / 1000000000) ≥ T then T - 1
     else (if X / 1000000000 < 0 then 0 else X / 1000000000)) = T - 1 := by
  have hdm : sr * (T * 1000000000 / sr) + T * 1000000000 % sr = T * 1000000000 :=
    Int.ediv_add_emod _ _
  have hr0 : 0 ≤ T * 1000000000 % sr := Int.emod_nonneg _ (by omega)
  have hrlt : T * 1000000000 % sr < sr := Int.emod_lt_of_pos _ (by omega)
  have hD0 : 0 ≤ T * 1000000000 / sr :=
    Int.ediv_nonneg (mul_nonneg hT0 (by norm_num)) (by omega)
  have hX' : X = T * 1000000000 - T * 1000000000 % sr := by
    rw [hX, mul_comm]
    omega
  have hX0 : 0 ≤ X := by
    rw [hX]
    exact mul_nonneg hD0 (by omega)
  split_ifs <;> omega

lemma seekTarget_one_eq (g : GameSeek) (T : ℤ) (hT0 : 0 ≤ T)
    (hsr1 : 1 ≤ g.sampleRate) (hsrB : g.sampleRate ≤ nsPerSecond)
    (hdur : g.audioDuration = loadDuration T g.sampleRate) :
    seekTarget g T 1 = T - 1 := by
  have hns : nsPerSecond = 1000000000 := rfl
  have hDconv : g.audioDuration = T * 1000000000 / g.sampleRate := by
    rw [hdur]
    unfold loadDuration
    rw [sampleRateN_second, hns,
      Int.tdiv_eq_ediv (mul_nonneg hT0 (by norm_num)) (by omega)]
  have harg : (1 : ℚ) * (g.audioDuration : ℚ) * (g.sampleRate : ℚ)
        / ((nsPerSecond : ℤ) : ℚ)
      = ((T * 1000000000 / g.sampleRate * g.sampleRate : ℤ) : ℚ)
          / ((1000000000 : ℕ) : ℚ) := by
    rw [hDconv, hns]
    push_cast
    ring
  have htr : goTrunc ((1 : ℚ) * (g.audioDuration : ℚ) * (g.sampleRate : ℚ)
        / ((nsPerSecond : ℤ) : ℚ))
      = T * 1000000000 / g.sampleRate * g.sampleRate / 1000000000 := by
    rw [harg, goTrunc, if_neg (not_lt.mpr (by positivity)),
      Rat.floor_intCast_div_natCast]
    norm_num
  simp only [seekTarget]
  rw [if_neg (by norm_num : ¬(1 : ℚ) < 0), if_neg (by norm_num : ¬(1 : ℚ) > 1), htr]
  exact seek_offset_arith T g.sampleRate _ hT0 hsr1 (by omega) rfl

/-- C7: `seekToPosition` clamps the normalized argument, so 1.5 behaves as
1.0; for a loaded stream (duration derived from `Len()`, sample rate between
1 and 10⁹ Hz) the offset handed to the decoder at position 1 is
`totalSamples - 1`; and in the concrete 44100 Hz / 10 s scenario, seeking to
0.5 passes offset 220500 and sets the position to 5 s. -/
theorem c7_seek_clamp_and_offset :
    (∀ (g : GameSeek) (now : ℤ) (res : ℤ → Option String),
        seekToPosition g (3 / 2) now res = seekToPosition g 1 now res)
    ∧ (∀ (g : GameSeek) (st : StreamerInfo) (now : ℤ) (res : ℤ → Option String),
        g.streamer = some st →
        ¬(now - g.lastSeekTime < 50 * 1000000) →
        0 ≤ st.len → 1 ≤ g.sampleRate → g.sampleRate ≤ nsPerSecond →
        g.audioDuration = loadDuration st.len g.sampleRate →
        (seekToPosition g 1 now res).2 = [st.len - 1])
    ∧ seekToPosition ⟨some ⟨441000⟩, 44100, 0, 10000000000, 0, false, none⟩
          (1 / 2) 1000000000 (fun _ => none)
        = (⟨some ⟨441000⟩, 44100, 5000000000, 10000000000, 1000000000, false, none⟩,
            [220500]) := by
  refine ⟨?_, ?_, ?_⟩
  · intro g now res
    have hT : ∀ m : ℤ, seekTarget g m (3 / 2) = seekTarget g m 1 := by
      intro m
      unfold seekTarget
      norm_num
    rcases hst : g.streamer with _ | st
    · simp [seekToPosition, hst]
    · simp only [seekToPosition, hst, hT]
  · intro g st now res hst hdb hlen0 hsr1 hsrB hdur
    have htar : seekTarget g st.len 1 = st.len - 1 :=
      seekTarget_one_eq g st.len hlen0 hsr1 hsrB hdur
    simp only [seekToPosition, hst]
    rw [if_neg hdb]
    rcases hres : res (seekTarget g st.len 1) with _ | e <;> simp [htar]
  · have harg : (1 / 2 : ℚ) * ((10000000000 : ℤ) : ℚ) * ((44100 : ℤ) : ℚ)
        / ((nsPerSecond : ℤ) : ℚ) = ((220500 : ℤ) : ℚ) := by
      norm_num [nsPerSecond]
    have htar : seekTarget ⟨some ⟨441000⟩, 44100, 0, 10000000000, 0, false, none⟩
        (441000 : ℤ) (1 / 2) = 220500 := by
      simp only [seekTarget]
      rw [if_neg (by norm_num : ¬(1 / 2 : ℚ) < 0),
        if_neg (by norm_num : ¬(1 / 2 : ℚ) > 1)]
      rw [show ((⟨some ⟨441000⟩, 44100, 0, 10000000000, 0, false,
          none⟩ : GameSeek).audioDuration : ℚ) = ((10000000000 : ℤ) : ℚ) from rfl,
        show ((⟨some ⟨441000⟩, 44100, 0, 10000000000, 0, false,
          none⟩ : GameSeek).sampleRate : ℚ) = ((44100 : ℤ) : ℚ) from rfl,
        harg, goTrunc_intCast]
      norm_num
    simp only [seekToPosition]
    rw [if_neg (by norm_num)]
    rw [show seekTarget ⟨some ⟨441000⟩, 44100, 0, 10000000000, 0, false, none⟩
        ((⟨441000⟩ : StreamerInfo).len) (1 / 2) = 220500 from htar]
    rw [show Int.tdiv (220500 * nsPerSecond) (sampleRateN 44100 nsPerSecond)
        = 5000000000 from by decide]

/-- Witness for C7: the loaded-stream offset conjunct at 44100 Hz and
441000 samples gives offset 440999. -/
theorem c7_seek_clamp_and_offset_witness :
    (seekToPosition ⟨some ⟨441000⟩, 44100, 0, 10000000000, 0, false, none⟩
        1 1000000000 (fun _ => none)).2 = [441000 - 1] :=
  c7_seek_clamp_and_offset.2.1
    ⟨some ⟨441000⟩, 44100, 0, 10000000000, 0, false, none⟩ ⟨441000⟩
    1000000000 (fun _ => none) rfl (by decide) (by decide) (by decide)
    (by decide) (by decide)

/-! ## Position invariant (C8) -/

/-- The invariant of C8: `0 ≤ position ≤ total`. -/
def PosInvariant (g : GameSeek) : Prop :=
  0 ≤ g.audioPosition ∧ g.audioPosition ≤ g.audioDuration

/-- What `loadAndPlay` guarantees about a loaded session: the streamer's
sample count is nonnegative, the sample rate positive, and the duration is
the one derived from `Len()`. -/
def SessionWF (g : GameSeek) : Prop :=
  ∀ st : StreamerInfo, g.streamer = some st →
    0 ≤ st.len ∧ 1 ≤ g.sampleRate ∧
      g.audioDuration = loadDuration st.len g.sampleRate

lemma seekTarget_le (g : GameSeek) (maxPos : ℤ) (pos : ℚ) :
    seekTarget g maxPos pos ≤ maxPos - 1 := by
  simp only [seekTarget]
  split_ifs <;> omega

lemma loadDuration_nonneg (len sr : ℤ) (hlen : 0 ≤ len) (hsr : 1 ≤ sr) :
    0 ≤ loadDuration len sr := by
  unfold loadDuration
  rw [sampleRateN_second]
  exact Int.tdiv_nonneg (mul_nonneg hlen (by norm_num [nsPerSecond])) (by omega)

lemma seek_new_position_bounds (g : GameSeek) (st : StreamerInfo) (pos : ℚ)
    (hlen0 : 0 ≤ st.len) (hsr1 : 1 ≤ g.sampleRate)
    (hdur : g.audioDuration = loadDuration st.len g.sampleRate)
    (hoff0 : 0 ≤ seekTarget g st.len pos) :
    0 ≤ Int.tdiv (seekTarget g st.len pos * nsPerSecond)
        (sampleRateN g.sampleRate nsPerSecond)
    ∧ Int.tdiv (seekTarget g st.len pos * nsPerSecond)
        (sampleRateN g.sampleRate nsPerSecond) ≤ g.audioDuration := by
  rw [sampleRateN_second]
  have hofflen : seekTarget g st.len pos ≤ st.len - 1 := seekTarget_le g st.len pos
  constructor
  · exact Int.tdiv_nonneg (mul_nonneg hoff0 (by norm_num [nsPerSecond])) (by omega)
  · rw [hdur]
    unfold loadDuration
    rw [sampleRateN_second,
      Int.tdiv_eq_ediv (mul_nonneg hoff0 (by norm_num [nsPerSecond])) (by omega),
      Int.tdiv_eq_ediv (mul_nonneg hlen0 (by norm_num [nsPerSecond])) (by omega)]
    apply Int.ediv_le_ediv (by omega)
    exact mul_le_mul_of_nonneg_right (by omega) (by norm_num [nsPerSecond])

/-- C8: `0 ≤ position ≤ total` holds after every tracker operation — load,
tick (`updateAudioPosition`), seek (with a decoder that only accepts
nonnegative offsets, as beep's decoders do), and stream end. -/
theorem c8_position_invariant :
    (∀ (g : GameSeek) (len sr : ℤ), 0 ≤ len → 1 ≤ sr →
        PosInvariant (loadAndPlayReset g len sr))
    ∧ (∀ g : GameSeek, PosInvariant g → PosInvariant (updateAudioPosition g))
    ∧ (∀ (g : GameSeek) (pos : ℚ) (now : ℤ) (res : ℤ → Option String),
        PosInvariant g → SessionWF g →
        (∀ off : ℤ, res off = none → 0 ≤ off) →
        PosInvariant (seekToPosition g pos now res).1)
    ∧ (∀ g : GameSeek, PosInvariant (onStreamEnded g)) := by
  refine ⟨?_, ?_, ?_, ?_⟩
  · intro g len sr hlen hsr
    exact ⟨le_refl 0, loadDuration_nonneg len sr hlen hsr⟩
  · intro g hg
    obtain ⟨h1, h2⟩ := hg
    simp only [updateAudioPosition]
    split_ifs with hc hp
    · exact ⟨h1, h2⟩
    · exact ⟨by show (0 : ℤ) ≤ g.audioDuration; omega, le_refl _⟩
    · have hc60 : 0 ≤ Int.tdiv nsPerSecond 60 := by decide
      constructor
      · show (0 : ℤ) ≤ g.audioPosition + Int.tdiv nsPerSecond 60
        omega
      · show g.audioPosition + Int.tdiv nsPerSecond 60 ≤ g.audioDuration
        omega
  · intro g pos now res hinv hwf hdec
    rcases hst : g.streamer with _ | st
    · simp only [seekToPosition, hst]
      exact hinv
    · simp only [seekToPosition, hst]
      split_ifs with hdb
      · exact hinv
      · obtain ⟨hlen0, hsr1, hdur⟩ := hwf st hst
        rcases hres : res (seekTarget g st.len pos) with _ | e
        · have hoff0 : 0 ≤ seekTarget g st.len pos := hdec _ hres
          obtain ⟨hb1, hb2⟩ :=
            seek_new_position_bounds g st pos hlen0 hsr1 hdur hoff0
          exact ⟨hb1, hb2⟩
        · exact hinv
  · intro g
    exact ⟨le_refl 0, le_refl 0⟩

/-- Witness for C8: the seek branch at the concrete loaded session with a
range-checking decoder. -/
theorem c8_position_invariant_witness :
    PosInvariant (seekToPosition
        ⟨some ⟨441000⟩, 44100, 0, 10000000000, 0, false, none⟩ (1 / 2) 1000000000
        (fun off => if off < 0 then some "out of range" else none)).1 :=
  c8_position_invariant.2.2.1
    ⟨some ⟨441000⟩, 44100, 0, 10000000000, 0, false, none⟩ (1 / 2) 1000000000
    (fun off => if off < 0 then some "out of range" else none)
    ⟨by decide, by decide⟩
    (fun st hst => by
      have h : st = ⟨441000⟩ := by
        injection hst with h
        exact h.symm
      subst h
      exact ⟨by decide, by decide, by decide⟩)
    (fun off h => by
      by_cases hc : off < 0
      · simp [hc] at h
      · omega)

end AudioViz
